import Mathlib

/-!
Verification of the volleystats multi-phase crawl orchestration core.

The definitions below are a shallow embedding of the repository's code:

* `src/volleystats/spiders/competition.py` — the competition-matches
  spider: season-window construction and validation (`__init__`), the
  season filter applied while parsing match rows (`parse`), and the
  post-crawl rename of the provisional CSV (`closed`).
* `src/volleystats/workflows/vbl.py` — the Bundesliga workflow:
  per-phase match-id accumulation and deduplication
  (`run_vbl_full_season_workflow`), output-file resolution
  (`_resolve_competition_file`), match-id read-back (`_read_match_ids`)
  and the fan-out of per-match statistics jobs
  (`_collect_match_statistics`).

Python integers are modelled by `Int`, optional values by `Option`, the
filesystem by explicit lists of file names (with modification times where
the code sorts by them), and raised-versus-caught exceptions by explicit
result fields.
-/

namespace Volleystats

/-- Python truthiness of an optional integer: `None` and `0` are falsy,
every other integer is truthy.  The spider tests its season bounds with
`if self.season_start_year and ...`, i.e. by truthiness, not by `is None`. -/
def intTruthy : Option Int → Bool
  | none => false
  | some n => n != 0

/-- The season window stored on `CompetitionMatchesSpider`:
`self.season_start_year` and `self.season_end_year`, each an `int` or
`None`. -/
structure SeasonWindow where
  season_start_year : Option Int
  season_end_year : Option Int
deriving DecidableEq, Repr

/-- The keep/drop decision of `CompetitionMatchesSpider.parse`
(`competition.py` lines 79–86) for one scraped row, given the row's parsed
year (`match_year`, `None` when the date was unparsable):

```
if match_year is not None:
    if self.season_start_year and match_year < self.season_start_year:
        continue
    if self.season_end_year and match_year > self.season_end_year:
        continue
elif self.season_start_year or self.season_end_year:
    continue
```

`true` means the row is kept (not skipped by `continue`). -/
def keepMatch (w : SeasonWindow) : Option Int → Bool
  | some y =>
      if intTruthy w.season_start_year && decide (y < w.season_start_year.getD 0) then
        false
      else if intTruthy w.season_end_year && decide (w.season_end_year.getD 0 < y) then
        false
      else
        true
  | none => !(intTruthy w.season_start_year || intTruthy w.season_end_year)

/-- The specification's `in_window` predicate, stated from the spec's own
words (§4.1 / §8): for a parseable year, true iff
`(start==null or y>=start) and (end==null or y<=end)`; for a null year,
true iff both bounds are null.  Used only to compare against `keepMatch`. -/
def in_window (w : SeasonWindow) : Option Int → Bool
  | some y =>
      (w.season_start_year.all fun s => decide (s ≤ y)) &&
        (w.season_end_year.all fun e => decide (y ≤ e))
  | none => w.season_start_year.isNone && w.season_end_year.isNone

/-- A bound as the code effectively treats it: a bound whose stored value
is `0` is falsy in Python and therefore behaves exactly like an unset
bound in every truthiness test of the spider. -/
def activeBound : Option Int → Option Int
  | none => none
  | some n => if n = 0 then none else some n

/-- The window as the code effectively interprets it: zero-valued bounds
behave as unset. -/
def effectiveWindow (w : SeasonWindow) : SeasonWindow :=
  ⟨activeBound w.season_start_year, activeBound w.season_end_year⟩

/-- `_DEFAULT_SEASON_RANGES` from `competition.py`: known competition
defaults keyed on `(fed_acronym, competition_id)`. -/
def defaultSeasonRanges (fed_acronym competition_id : String) : Option (Int × Int) :=
  if fed_acronym = "vbl" && competition_id = "160" then some (2025, 2026)
  else if fed_acronym = "vbl" && competition_id = "185" then some (2025, 2026)
  else none

/-- Season-window construction and validation from
`CompetitionMatchesSpider.__init__` (`competition.py` lines 30–42), as a
function of the already-converted attribute values
(`int(x) if x else None` has been applied upstream, so a stored bound is
an `int` or `None`):

* if both stored bounds are `None` (an `is None` test), a known default
  range for `(fed_acronym, competition_id)` is applied when one exists;
* then, if both bounds are truthy and `end < start`, a `ValueError` is
  raised — before any crawl request is issued, since this runs in the
  constructor;
* otherwise construction succeeds with the (possibly defaulted) window.
-/
def initSeasonWindow (fed_acronym competition_id : String)
    (season_start_year season_end_year : Option Int) : Except String SeasonWindow :=
  let sw : SeasonWindow :=
    if season_start_year = none ∧ season_end_year = none then
      match defaultSeasonRanges fed_acronym competition_id with
      | some (ds, de) => ⟨some ds, some de⟩
      | none => ⟨season_start_year, season_end_year⟩
    else ⟨season_start_year, season_end_year⟩
  if intTruthy sw.season_start_year && intTruthy sw.season_end_year &&
      decide (sw.season_end_year.getD 0 < sw.season_start_year.getD 0) then
    Except.error "season_end_year must be greater than or equal to season_start_year"
  else
    Except.ok sw

/-- Modelled from the spec: `parse_short_date` lives in the repository's
`utils` module, which is not present under `src/`.  Per the spec (§4.1) it
converts a locale-specific abbreviated date string into an unambiguous
calendar-date string in year-month-day ordering, or null when the text
matches no recognized short-date pattern.  A canonical date is modelled by
its numeric components; comparison of the zero-padded `YYYY-MM-DD`
rendering agrees with the lexicographic order on `(year, month, day)`,
and `int(match_date.split('-')[0])` recovers the `year` component. -/
structure MatchDate where
  year : Int
  month : Nat
  day : Nat
deriving DecidableEq, Repr

/-- String comparison of two canonical `YYYY-MM-DD` dates, i.e. the order
used by Python's `sorted` on the spider's canonical date strings:
lexicographic on `(year, month, day)`. -/
def dateLe (a b : MatchDate) : Bool :=
  decide (a.year < b.year) ||
    (decide (a.year = b.year) &&
      (decide (a.month < b.month) ||
        (decide (a.month = b.month) && decide (a.day ≤ b.day))))

/-- One row scraped from the competition page, after field extraction:
the fields of the `competition` dict built in
`CompetitionMatchesSpider.parse`.  `match_date` is the result of
`parse_short_date` (`none` = unparsable date, the empty string in the
code). -/
structure ScrapedMatch where
  match_id : String
  match_date : Option MatchDate
  stadium : Option String
  home_team : Option String
  home_points : Option String
  guest_team : Option String
  guest_points : Option String
deriving DecidableEq, Repr

/-- `match_year` as computed in `parse` (`competition.py` lines 72–77):
the integer year of the canonical date, `None` when the date was
unparsable. -/
def matchYear (d : Option MatchDate) : Option Int :=
  d.map MatchDate.year

namespace CompetitionMatchesSpider

/-- The rows of one response that survive the season filter of `parse`
(the rows not skipped by `continue`), in scraped order. -/
def survivors (w : SeasonWindow) (rows : List ScrapedMatch) : List ScrapedMatch :=
  rows.filter fun r => keepMatch w (matchYear r.match_date)

/-- The spider state that `parse` leaves behind for `closed`:
`items_scraped`, and `first_item_date` / `last_item_date` — in the code
4-digit year strings extracted by a 4-digit-word regex from the first
and last canonical date, modelled as the extracted years (`none` = the
empty string, i.e. never set). -/
structure ParseResult where
  items : List ScrapedMatch
  items_scraped : Nat
  first_item_date : Option Int
  last_item_date : Option Int
deriving DecidableEq, Repr

/-- `CompetitionMatchesSpider.parse` over the rows of the (single)
response, restricted to the state it computes (`competition.py` lines
60–135): filter the rows by the season window, count the survivors, then
sort the survivors' non-empty canonical dates and record the year of the
first and of the last.

When no survivor has a parseable date but survivors exist, the code
evaluates `sorted_dates[0]` on an empty list and raises `IndexError`;
`first_item_date` and `last_item_date` keep their initial empty value in
that case (the already-yielded items are unaffected). -/
def parse (w : SeasonWindow) (rows : List ScrapedMatch) : ParseResult :=
  let competition_items := survivors w rows
  if competition_items.isEmpty then
    ⟨[], 0, none, none⟩
  else
    let sorted_dates := (competition_items.filterMap ScrapedMatch.match_date).mergeSort dateLe
    match sorted_dates with
    | [] => ⟨competition_items, competition_items.length, none, none⟩
    | d :: ds =>
        ⟨competition_items, competition_items.length,
          some d.year, some ((d :: ds).getLastD d).year⟩

/-- `src` in `CompetitionMatchesSpider.closed`: the provisional feed file
name. -/
def provisionalName (fed_acronym competition_id competition_pid : String) : String :=
  s!"data/{fed_acronym}-{competition_id}-{competition_pid}-competition_matches.csv"

/-- `dst` in `CompetitionMatchesSpider.closed`: the rename target,
embedding the first and last item years; the PID segment is included only
when `competition_pid` is truthy (non-empty). -/
def renamedName (fed_acronym competition_id competition_pid : String)
    (first_year last_year : Int) : String :=
  let pid_segment := if competition_pid ≠ "" then competition_pid ++ "-" else ""
  s!"data/{fed_acronym}-{competition_id}-{pid_segment}{first_year}-{last_year}-competition-matches.csv"

/-- Result of running `closed`: the file names present afterwards, whether
an exception escaped the handler, and the rename target when a rename
happened. -/
structure ClosedResult where
  fs : List String
  uncaught : Bool
  renamed_to : Option String
deriving DecidableEq, Repr

/-- `CompetitionMatchesSpider.closed` (`competition.py` lines 137–162)
over a filesystem modelled as the list of existing file names.

* If `items_scraped` is 0 or either item date is unset, only a message is
  printed and the handler returns: no rename, no exception.
* Otherwise `os.rename(src, dst)` is attempted.  `os.rename` raises
  `FileNotFoundError` when `src` does not exist (not caught by the
  handler) and `FileExistsError` when `dst` already exists — the error
  the handler catches and turns into a warning, leaving both files in
  place. -/
def closed (fs : List String) (fed_acronym competition_id competition_pid : String)
    (pr : ParseResult) : ClosedResult :=
  let src := provisionalName fed_acronym competition_id competition_pid
  match pr.first_item_date, pr.last_item_date with
  | some y1, some y2 =>
      if pr.items_scraped = 0 then ⟨fs, false, none⟩
      else
        let dst := renamedName fed_acronym competition_id competition_pid y1 y2
        if src ∈ fs then
          if dst ∈ fs then ⟨fs, false, none⟩
          else ⟨dst :: fs.erase src, false, some dst⟩
        else ⟨fs, true, none⟩
  | _, _ => ⟨fs, false, none⟩

/-- The years of the surviving records' parseable dates, in scraped
order: the domain of the min/max computation behind the rename target. -/
def survivingYears (w : SeasonWindow) (rows : List ScrapedMatch) : List Int :=
  ((survivors w rows).filterMap ScrapedMatch.match_date).map MatchDate.year

end CompetitionMatchesSpider

/-- The accumulator of `run_vbl_full_season_workflow` (`vbl.py` lines
44–45): the fan-out queue `unique_match_ids` and the set
`seen_match_ids`. -/
structure DedupState where
  unique_match_ids : List String
  seen_match_ids : Finset String
deriving DecidableEq

/-- One iteration of the phase loop of `run_vbl_full_season_workflow`
(`vbl.py` lines 47–57), given the match ids read back from the phase's
output file:

```
fresh_ids = [m for m in phase_match_ids if m not in seen_match_ids]
if not fresh_ids: continue
unique_match_ids.extend(fresh_ids)
seen_match_ids.update(fresh_ids)
```
-/
def accumulatePhase (st : DedupState) (phase_match_ids : List String) : DedupState :=
  let fresh_ids := phase_match_ids.filter fun m => decide (m ∉ st.seen_match_ids)
  if fresh_ids.isEmpty then st
  else ⟨st.unique_match_ids ++ fresh_ids, st.seen_match_ids ∪ fresh_ids.toFinset⟩

/-- The whole phase loop, starting from the empty queue and empty seen
set, over the per-phase match-id lists. -/
def accumulatePhases (phases : List (List String)) : DedupState :=
  phases.foldl accumulatePhase ⟨[], ∅⟩

/-- Keep-first deduplication of a list relative to an already-seen set:
the order-preserving list of first occurrences of ids not in `seen`.
Used to state what the accumulated fan-out queue is. -/
def dedupFrom (seen : Finset String) : List String → List String
  | [] => []
  | x :: xs => if x ∈ seen then dedupFrom seen xs else x :: dedupFrom (insert x seen) xs

/-- A file in the `data` directory, with its name and its modification
time (`stat().st_mtime`). -/
structure DataFile where
  name : String
  mtime : Nat
deriving DecidableEq, Repr

/-- The glob pattern prefix of `_resolve_competition_file` (`vbl.py`
lines 172–174): `f"{fed_acronym}-{competition_id}-{pid_prefix}"` where
`pid_prefix` is `f"{competition_pid}-"` when `competition_pid` is truthy
and empty otherwise. -/
def renamedPatternPrefix (fed_acronym competition_id competition_pid : String) : String :=
  let pid_prefix := if competition_pid ≠ "" then competition_pid ++ "-" else ""
  s!"{fed_acronym}-{competition_id}-{pid_prefix}"

/-- Whether a file name matches the glob
`{prefix}*-competition-matches.csv`: it starts with the prefix and the
remainder ends with `-competition-matches.csv` (the `*` matches any,
possibly empty, run of characters). -/
def matchesRenamedPattern (fed_acronym competition_id competition_pid name : String) : Bool :=
  let pre := renamedPatternPrefix fed_acronym competition_id competition_pid
  name.startsWith pre && (name.drop pre.length).endsWith "-competition-matches.csv"

/-- The glob candidates of `_resolve_competition_file`, in directory
order. -/
def renamedCandidates (dir : List DataFile)
    (fed_acronym competition_id competition_pid : String) : List DataFile :=
  dir.filter fun f => matchesRenamedPattern fed_acronym competition_id competition_pid f.name

/-- The provisional file name `_resolve_competition_file` falls back to
(`vbl.py` lines 183–185); the same name as the spider's feed file, minus
the `data/` directory prefix handled by `Path`. -/
def workflowProvisionalName (fed_acronym competition_id competition_pid : String) : String :=
  s!"{fed_acronym}-{competition_id}-{competition_pid}-competition_matches.csv"

/-- The `FileNotFoundError` message of `_resolve_competition_file`
(`vbl.py` lines 189–192). -/
def notFoundMessage (fed_acronym competition_id competition_pid : String) : String :=
  "volleystats: unable to locate competition matches file for " ++
    fed_acronym ++ " ID " ++ competition_id ++ " PID " ++ competition_pid

/-- `_resolve_competition_file` (`vbl.py` lines 172–192) over a directory
listing: sort the glob matches by modification time, most recent first
(Python's `sorted(..., reverse=True)` — stable, so directory order breaks
ties), and return the first; otherwise fall back to the provisional name
when it exists; otherwise raise `FileNotFoundError`. -/
def resolveCompetitionFile (dir : List DataFile)
    (fed_acronym competition_id competition_pid : String) : Except String String :=
  let candidates :=
    (renamedCandidates dir fed_acronym competition_id competition_pid).mergeSort
      fun a b => decide (b.mtime ≤ a.mtime)
  match candidates with
  | c :: _ => Except.ok c.name
  | [] =>
      let fallback := workflowProvisionalName fed_acronym competition_id competition_pid
      if dir.any fun f => f.name = fallback then Except.ok fallback
      else Except.error (notFoundMessage fed_acronym competition_id competition_pid)

/-- A `CompetitionRecord` as written to the competition CSV: the seven
fields of the `competition` dict of the spider, in feed-column order. -/
structure CompetitionRecord where
  match_id : String
  match_date : String
  stadium : String
  home_team : String
  home_points : String
  guest_team : String
  guest_points : String
deriving DecidableEq, Repr

/-- The CSV header row: the record's field names in their fixed order. -/
def competitionHeader : List String :=
  ["Match ID", "Match Date", "Stadium", "Home Team", "Home Points",
    "Guest Team", "Guest Points"]

/-- The CSV data row of one record, in header order. -/
def recordRow (r : CompetitionRecord) : List String :=
  [r.match_id, r.match_date, r.stadium, r.home_team, r.home_points,
    r.guest_team, r.guest_points]

/-- Modelled from the spec: the CSV feed exporter that writes the
competition file is the crawling collaborator's, not code under `src/`.
Per the spec (§6), the file is a header row holding the field names in a
fixed order followed by one data row per record, in record order.  A CSV
file is modelled as its list of rows, each a list of cell strings. -/
def writeCompetitionCsv (rs : List CompetitionRecord) : List (List String) :=
  competitionHeader :: rs.map recordRow

/-- `csv.DictReader` row lookup: `row.get(field)` is the cell at the
field's position in the header row, `None` when the header lacks the
field or the row is too short. -/
def rowLookup (header row : List String) (field : String) : Option String :=
  (header.indexOf? field).bind fun i => row.get? i

/-- `_read_match_ids` (`vbl.py` lines 195–198): read the rows behind a
`DictReader` and keep each row's truthy (non-empty) `"Match ID"` value,
in row order. -/
def readMatchIds (file : List (List String)) : List String :=
  match file with
  | [] => []
  | header :: rows =>
      rows.filterMap fun row =>
        match rowLookup header row "Match ID" with
        | some v => if v ≠ "" then some v else none
        | none => none

/-- The side of a match-statistics crawl job: `HomeStatsSpider` or
`GuestStatsSpider`. -/
inductive StatsSide where
  | home
  | guest
deriving DecidableEq, Repr

/-- One fan-out crawl job scheduled by `_collect_match_statistics`:
`runner.crawl(HomeStatsSpider | GuestStatsSpider, fed_acronym=...,
match_id=...)`. -/
structure StatsJob where
  side : StatsSide
  fed_acronym : String
  match_id : String
deriving DecidableEq, Repr

/-- The job batch built by the loop of `_collect_match_statistics`
(`vbl.py` lines 217–226): for each queued match id, in queue order, a
home job then a guest job, all with the same federation acronym. -/
def collectMatchStatisticsJobs (fed_acronym : String) (match_ids : List String) :
    List StatsJob :=
  match_ids.flatMap fun match_id =>
    [⟨StatsSide.home, fed_acronym, match_id⟩, ⟨StatsSide.guest, fed_acronym, match_id⟩]

/-- One per-job completion event, in the order the crawl engine reports
them: successful completion (the job's output file is on disk) or
failure. -/
inductive JobEvent where
  | ok (job : StatsJob)
  | fail (job : StatsJob) (message : String)
deriving DecidableEq, Repr

/-- Modelled from the spec: the batch-submission collaborator awaited by
`_collect_match_statistics` via
`defer.DeferredList(deferreds, fireOnOneErrback=True)` is external
library code, not code under `src/`.  Per the spec (§4.5/§7), the batch
is awaited until it drains or until the first failure arrives; the first
failure aborts waiting on the remaining jobs, and jobs already completed
keep their output files.  Given the completion events in arrival order,
the result is the list of retained completed jobs and either success or
the first failure's message. -/
def runJobBatch : List JobEvent → List StatsJob × Except String Unit
  | [] => ([], Except.ok ())
  | JobEvent.ok j :: rest =>
      let r := runJobBatch rest
      (j :: r.1, r.2)
  | JobEvent.fail _ msg :: _ => ([], Except.error msg)

/-- Modelled from the spec: the fan-out step of the workflow
(`run_vbl_full_season_workflow` reaches it through `_run_workflow`, which
is referenced but not present under `src/`; its body is the dead inlined
copy at `vbl.py` lines 96–102 plus the failure plumbing at lines 63–79).
If the accumulated queue is empty, nothing is scheduled and the workflow
ends successfully; otherwise `_collect_match_statistics` runs the batch
and the workflow re-raises the first recorded failure to its caller
(`failure.raiseException()`). -/
def runFanOut (match_ids : List String) (events : List JobEvent) :
    List StatsJob × Except String Unit :=
  if match_ids.isEmpty then ([], Except.ok ())
  else runJobBatch events

end Volleystats

namespace Volleystats

/-- C1 (counterexample): the claim states that a record is kept iff the
spec's `in_window` predicate holds, reading an unset bound as absent.
With the window `⟨none, some 0⟩` — reachable, since a season bound passed
as the string `"0"` is truthy and stores the integer `0` — a record of
year 2025 is kept by the code (a zero bound is falsy in every filter
test) while `in_window` demands `2025 ≤ 0` and rejects it. -/
theorem season_filter_counterexample :
    keepMatch ⟨none, some 0⟩ (some 2025) = true ∧
      in_window ⟨none, some 0⟩ (some 2025) = false := by
  decide

/-- C1 (amended): for every scraped record and window, the record is kept
iff the spec's `in_window` predicate holds of the effective window, in
which a bound stored as `0` (falsy in Python) behaves exactly like an
unset bound: a parseable year is kept iff it lies within the effective
bounds, and an unparsable year is kept iff both effective bounds are
unset. -/
theorem season_filter_amended (w : SeasonWindow) (y : Option Int) :
    keepMatch w y = in_window (effectiveWindow w) y := by
  obtain ⟨s, e⟩ := w
  cases y <;> cases s <;> cases e <;>
    simp only [keepMatch, in_window, effectiveWindow, activeBound, intTruthy] <;>
    (try split_ifs) <;> simp_all

/-- C7 (counterexample): the claim states that whenever both season
bounds are present and `end_year < start_year`, construction fails.  With
`start_year = 0` (reachable from the string argument `"0"`) and
`end_year = -1`, both bounds are present and the window is inverted, yet
construction succeeds, because the validation guard
`if self.season_start_year and self.season_end_year` tests truthiness and
`0` is falsy. -/
theorem season_validation_counterexample :
    initSeasonWindow "vbl" "160" (some 0) (some (-1)) =
      Except.ok ⟨some 0, some (-1)⟩ := by
  rfl

/-- C7 (amended): construction fails iff both season bounds are present
and nonzero (truthy) and `end_year < start_year`; it succeeds whenever
`end_year ≥ start_year`, or either bound is unset or zero.  The failure
is raised in the constructor, before any crawl request is issued. -/
theorem season_validation_amended (fed_acronym competition_id : String)
    (s e : Option Int) :
    (initSeasonWindow fed_acronym competition_id s e).isOk = false ↔
      ∃ sv ev, s = some sv ∧ e = some ev ∧ sv ≠ 0 ∧ ev ≠ 0 ∧ ev < sv := by
  cases s with
  | none =>
      simp only [initSeasonWindow, defaultSeasonRanges]
      cases e <;> split_ifs <;>
        simp_all [intTruthy, Except.isOk, Except.toBool]
  | some sv =>
      cases e with
      | none =>
          simp_all [initSeasonWindow, intTruthy, Except.isOk, Except.toBool]
      | some ev =>
          simp only [initSeasonWindow, intTruthy]
          split_ifs with h <;>
            simp_all [Except.isOk, Except.toBool]

/-- C7 (witness): the amended theorem at a concrete inverted window with
nonzero bounds — construction fails. -/
theorem season_validation_amended_witness :
    (initSeasonWindow "vbl" "999" (some 2026) (some 2025)).isOk = false :=
  (season_validation_amended "vbl" "999" (some 2026) (some 2025)).mpr
    ⟨2026, 2025, rfl, rfl, by decide, by decide, by decide⟩

/-! Helper lemmas about keep-first deduplication and the phase loop. -/

lemma dedupFrom_append (p : List String) :
    ∀ (seen : Finset String) (rest : List String), p.Nodup →
      dedupFrom seen (p ++ rest) =
        (p.filter fun m => decide (m ∉ seen)) ++
          dedupFrom (seen ∪ p.toFinset) rest := by
  induction p with
  | nil => intro seen rest _; simp [dedupFrom]
  | cons x xs ih =>
      intro seen rest hp
      rcases List.nodup_cons.mp hp with ⟨hx, hxs⟩
      by_cases hmem : x ∈ seen
      · have hseen : seen ∪ (x :: xs).toFinset = seen ∪ xs.toFinset := by
          ext y
          simp only [List.toFinset_cons, Finset.mem_union, Finset.mem_insert]
          constructor
          · rintro (h | rfl | h)
            · exact Or.inl h
            · exact Or.inl hmem
            · exact Or.inr h
          · rintro (h | h)
            · exact Or.inl h
            · exact Or.inr (Or.inr h)
        rw [List.cons_append,
          show dedupFrom seen (x :: (xs ++ rest)) = dedupFrom seen (xs ++ rest) by
            simp [dedupFrom, hmem],
          ih seen rest hxs, hseen]
        simp [List.filter_cons, hmem]
      · have hfil : (xs.filter fun m => decide (m ∉ insert x seen)) =
            xs.filter fun m => decide (m ∉ seen) := by
          apply List.filter_congr
          intro m hm
          have hne : m ≠ x := fun hc => hx (hc ▸ hm)
          simp [Finset.mem_insert, hne]
        have hun : insert x seen ∪ xs.toFinset = seen ∪ (x :: xs).toFinset := by
          ext y
          simp only [List.toFinset_cons, Finset.mem_union, Finset.mem_insert]
          tauto
        rw [List.cons_append,
          show dedupFrom seen (x :: (xs ++ rest)) =
              x :: dedupFrom (insert x seen) (xs ++ rest) by
            simp [dedupFrom, hmem],
          ih (insert x seen) rest hxs, hfil, hun]
        simp [List.filter_cons, hmem]

lemma mem_dedupFrom (l : List String) :
    ∀ (seen : Finset String) (x : String),
      x ∈ dedupFrom seen l → x ∈ l ∧ x ∉ seen := by
  induction l with
  | nil => intro seen x hx; simp [dedupFrom] at hx
  | cons a l ih =>
      intro seen x hx
      by_cases hmem : a ∈ seen
      · simp only [dedupFrom, if_pos hmem] at hx
        rcases ih seen x hx with ⟨h1, h2⟩
        exact ⟨List.mem_cons_of_mem _ h1, h2⟩
      · simp only [dedupFrom, if_neg hmem] at hx
        rcases List.mem_cons.mp hx with rfl | hx2
        · exact ⟨List.mem_cons_self _ _, hmem⟩
        · rcases ih (insert a seen) x hx2 with ⟨h1, h2⟩
          exact ⟨List.mem_cons_of_mem _ h1, fun hc => h2 (Finset.mem_insert_of_mem hc)⟩

lemma dedupFrom_nodup (l : List String) :
    ∀ seen : Finset String, (dedupFrom seen l).Nodup := by
  induction l with
  | nil => intro seen; simp [dedupFrom]
  | cons a l ih =>
      intro seen
      by_cases hmem : a ∈ seen
      · simpa only [dedupFrom, if_pos hmem] using ih seen
      · simp only [dedupFrom, if_neg hmem]
        refine List.nodup_cons.mpr ⟨fun hc => ?_, ih (insert a seen)⟩
        exact (mem_dedupFrom l (insert a seen) a hc).2 (Finset.mem_insert_self a seen)

lemma dedupFrom_toFinset (l : List String) :
    ∀ seen : Finset String, (dedupFrom seen l).toFinset = l.toFinset \ seen := by
  induction l with
  | nil => intro seen; simp [dedupFrom]
  | cons a l ih =>
      intro seen
      by_cases hmem : a ∈ seen
      · rw [show dedupFrom seen (a :: l) = dedupFrom seen l by simp [dedupFrom, hmem],
          ih seen]
        ext y
        simp only [Finset.mem_sdiff, List.toFinset_cons, Finset.mem_insert]
        constructor
        · rintro ⟨hy, hn⟩
          exact ⟨Or.inr hy, hn⟩
        · rintro ⟨hy | hy, hn⟩
          · exact absurd (hy ▸ hmem) hn
          · exact ⟨hy, hn⟩
      · rw [show dedupFrom seen (a :: l) = a :: dedupFrom (insert a seen) l by
            simp [dedupFrom, hmem],
          List.toFinset_cons, ih (insert a seen)]
        ext y
        by_cases hya : y = a <;>
          simp only [Finset.mem_insert, Finset.mem_sdiff, List.toFinset_cons,
            Finset.mem_insert, hya] <;>
          tauto

lemma accumulatePhase_step (st : DedupState) (p : List String) :
    (accumulatePhase st p).unique_match_ids =
        st.unique_match_ids ++ (p.filter fun m => decide (m ∉ st.seen_match_ids)) ∧
      (accumulatePhase st p).seen_match_ids = st.seen_match_ids ∪ p.toFinset := by
  have hsp : (accumulatePhase st p).unique_match_ids =
      st.unique_match_ids ++ (p.filter fun m => decide (m ∉ st.seen_match_ids)) ∧
      (accumulatePhase st p).seen_match_ids =
        st.seen_match_ids ∪
          (p.filter fun m => decide (m ∉ st.seen_match_ids)).toFinset := by
    by_cases hf : (p.filter fun m => decide (m ∉ st.seen_match_ids)).isEmpty
    · have hnil : (p.filter fun m => decide (m ∉ st.seen_match_ids)) = [] :=
        List.isEmpty_iff.mp hf
      simp only [accumulatePhase, hnil]
      simp
    · simp only [accumulatePhase]
      rw [if_neg hf]
      exact ⟨rfl, rfl⟩
  rcases hsp with ⟨hu, hs⟩
  refine ⟨hu, ?_⟩
  rw [hs]
  ext y
  simp only [Finset.mem_union, List.mem_toFinset, List.mem_filter,
    decide_eq_true_eq]
  by_cases hy : y ∈ st.seen_match_ids <;> tauto

lemma accumulatePhase_foldl (phases : List (List String)) :
    ∀ st : DedupState, (∀ p ∈ phases, p.Nodup) →
      (phases.foldl accumulatePhase st).unique_match_ids =
          st.unique_match_ids ++ dedupFrom st.seen_match_ids phases.flatten ∧
        (phases.foldl accumulatePhase st).seen_match_ids =
          st.seen_match_ids ∪ phases.flatten.toFinset := by
  induction phases with
  | nil => intro st _; simp [dedupFrom]
  | cons p ps ih =>
      intro st h
      have hp : p.Nodup := h p (by simp)
      have hps : ∀ q ∈ ps, q.Nodup := fun q hq => h q (by simp [hq])
      rcases accumulatePhase_step st p with ⟨hu, hs⟩
      rcases ih (accumulatePhase st p) hps with ⟨hu2, hs2⟩
      constructor
      · rw [List.foldl_cons, hu2, hu, hs, List.flatten_cons,
          dedupFrom_append p st.seen_match_ids ps.flatten hp, List.append_assoc]
      · rw [List.foldl_cons, hs2, hs, List.flatten_cons, List.toFinset_append,
          Finset.union_assoc]

lemma accumulatePhase_seen_inv (phases : List (List String)) :
    ∀ st : DedupState,
      st.seen_match_ids = st.unique_match_ids.toFinset →
      (phases.foldl accumulatePhase st).seen_match_ids =
        (phases.foldl accumulatePhase st).unique_match_ids.toFinset := by
  induction phases with
  | nil => intro st h; simpa using h
  | cons p ps ih =>
      intro st h
      rw [List.foldl_cons]
      apply ih
      rcases accumulatePhase_step st p with ⟨hu, hs⟩
      rw [hu, hs, h, List.toFinset_append]
      ext y
      simp only [Finset.mem_union, List.mem_toFinset, List.mem_filter,
        decide_eq_true_eq]
      by_cases hy : y ∈ st.unique_match_ids <;> tauto

lemma foldl_unique_prefix (phases : List (List String)) :
    ∀ st : DedupState,
      st.unique_match_ids <+: (phases.foldl accumulatePhase st).unique_match_ids := by
  induction phases with
  | nil => intro st; exact List.prefix_rfl
  | cons p ps ih =>
      intro st
      rw [List.foldl_cons]
      refine List.IsPrefix.trans ?_ (ih (accumulatePhase st p))
      rw [(accumulatePhase_step st p).1]
      exact List.prefix_append _ _

lemma foldl_seen_subset (phases : List (List String)) :
    ∀ st : DedupState,
      st.seen_match_ids ⊆ (phases.foldl accumulatePhase st).seen_match_ids := by
  induction phases with
  | nil => intro st; exact Finset.Subset.refl _
  | cons p ps ih =>
      intro st
      rw [List.foldl_cons]
      refine Finset.Subset.trans ?_ (ih (accumulatePhase st p))
      rw [(accumulatePhase_step st p).2]
      exact Finset.subset_union_left

/-- C2 (counterexample): the claim states that each distinct match id
appears exactly once in the final fan-out queue even when an id repeats
within a single phase's own output.  But `fresh_ids` is computed by one
list comprehension against `seen_match_ids`, which is only updated
afterwards: a phase whose output is `["a", "a"]` contributes `"a"`
twice. -/
theorem dedup_counterexample :
    (accumulatePhases [["a", "a"]]).unique_match_ids = ["a", "a"] ∧
      ¬ (accumulatePhases [["a", "a"]]).unique_match_ids.Nodup := by
  constructor <;> decide

/-- C2 (amended): provided each phase's own output contains no duplicate
match ids, the final accumulated fan-out queue lists each distinct id
exactly once, at the position of its first occurrence across the
concatenated phase outputs (it equals the keep-first deduplication of
that concatenation), and its set of entries equals the union of all
phases' ids.  Without that proviso, only cross-phase duplicates are
dropped; duplicates inside one phase's output are all appended. -/
theorem dedup_amended (phases : List (List String))
    (h : ∀ p ∈ phases, p.Nodup) :
    (accumulatePhases phases).unique_match_ids = dedupFrom ∅ phases.flatten ∧
      (accumulatePhases phases).unique_match_ids.Nodup ∧
      (accumulatePhases phases).unique_match_ids.toFinset =
        phases.flatten.toFinset := by
  rcases accumulatePhase_foldl phases ⟨[], ∅⟩ h with ⟨hu, -⟩
  have hq : (accumulatePhases phases).unique_match_ids = dedupFrom ∅ phases.flatten := by
    simpa [accumulatePhases] using hu
  refine ⟨hq, ?_, ?_⟩
  · rw [hq]; exact dedupFrom_nodup _ _
  · rw [hq, dedupFrom_toFinset]; simp

/-- C2 (witness): the amended theorem applied to two concrete
duplicate-free phases sharing the id `"b"`. -/
theorem dedup_amended_witness :
    (accumulatePhases [["a", "b"], ["b", "c"]]).unique_match_ids.Nodup :=
  (dedup_amended [["a", "b"], ["b", "c"]] (by decide)).2.1

/-- C10: at every point of the orchestrator's phase loop (after any
number `k` of iterations), the seen-id set equals the set of entries of
the accumulated fan-out queue, the queue so far is a prefix of the final
queue (no entry is ever removed or reordered), and the seen set so far is
a subset of the final seen set (no id is ever un-marked). -/
theorem queue_seen_invariant (phases : List (List String)) (k : Nat) :
    (accumulatePhases (phases.take k)).seen_match_ids =
        (accumulatePhases (phases.take k)).unique_match_ids.toFinset ∧
      (accumulatePhases (phases.take k)).unique_match_ids <+:
        (accumulatePhases phases).unique_match_ids ∧
      (accumulatePhases (phases.take k)).seen_match_ids ⊆
        (accumulatePhases phases).seen_match_ids := by
  have h1 : accumulatePhases phases =
      (phases.drop k).foldl accumulatePhase (accumulatePhases (phases.take k)) := by
    unfold accumulatePhases
    conv_lhs => rw [← List.take_append_drop k phases]
    rw [List.foldl_append]
  refine ⟨accumulatePhase_seen_inv _ _ (by simp), ?_, ?_⟩
  · rw [h1]; exact foldl_unique_prefix _ _
  · rw [h1]; exact foldl_seen_subset _ _

/-! Helper lemmas about the lexicographic date order and sorting. -/

lemma dateLe_refl (a : MatchDate) : dateLe a a = true := by
  simp [dateLe]

lemma dateLe_trans : ∀ a b c : MatchDate,
    dateLe a b = true → dateLe b c = true → dateLe a c = true := by
  intro a b c hab hbc
  simp only [dateLe, Bool.or_eq_true, Bool.and_eq_true, decide_eq_true_eq] at hab hbc ⊢
  omega

lemma dateLe_total : ∀ a b : MatchDate, (dateLe a b || dateLe b a) = true := by
  intro a b
  simp only [dateLe, Bool.or_eq_true, Bool.and_eq_true, decide_eq_true_eq]
  omega

lemma dateLe_year_le {a b : MatchDate} (h : dateLe a b = true) :
    a.year ≤ b.year := by
  simp only [dateLe, Bool.or_eq_true, Bool.and_eq_true, decide_eq_true_eq] at h
  omega

lemma getLastD_mem_cons (l : List MatchDate) :
    ∀ a : MatchDate, l.getLastD a ∈ a :: l := by
  induction l with
  | nil => intro a; simp [List.getLastD]
  | cons b l ih =>
      intro a
      rw [List.getLastD_cons]
      exact List.mem_cons_of_mem a (ih b)

lemma pairwise_dateLe_getLastD (l : List MatchDate) :
    ∀ a : MatchDate, (a :: l).Pairwise (fun x y => dateLe x y = true) →
      ∀ x ∈ a :: l, dateLe x (l.getLastD a) = true := by
  induction l with
  | nil =>
      intro a _ x hx
      rcases List.mem_singleton.mp hx with rfl
      exact dateLe_refl x
  | cons b l ih =>
      intro a hpw x hx
      rw [List.getLastD_cons]
      rcases List.pairwise_cons.mp hpw with ⟨ha, hpw2⟩
      rcases List.mem_cons.mp hx with rfl | hx2
      · exact ha _ (getLastD_mem_cons l b)
      · exact ih b hpw2 x hx2

lemma mergeSort_head_min (l : List MatchDate) (d : MatchDate) (t : List MatchDate)
    (h : l.mergeSort dateLe = d :: t) :
    d ∈ l ∧ ∀ x ∈ l, dateLe d x = true := by
  have hperm := List.mergeSort_perm l dateLe
  have hpw := List.sorted_mergeSort dateLe_trans dateLe_total l
  constructor
  · have hmem : d ∈ l.mergeSort dateLe := by
      rw [h]; exact List.mem_cons_self _ _
    exact hperm.mem_iff.mp hmem
  · intro x hx
    have hx2 : x ∈ d :: t := by
      rw [← h]; exact hperm.mem_iff.mpr hx
    rcases List.mem_cons.mp hx2 with rfl | hx3
    · exact dateLe_refl x
    · rw [h] at hpw
      exact (List.pairwise_cons.mp hpw).1 x hx3

lemma mergeSort_last_max (l : List MatchDate) (d : MatchDate) (t : List MatchDate)
    (h : l.mergeSort dateLe = d :: t) :
    t.getLastD d ∈ l ∧ ∀ x ∈ l, dateLe x (t.getLastD d) = true := by
  have hperm := List.mergeSort_perm l dateLe
  have hpw := List.sorted_mergeSort dateLe_trans dateLe_total l
  rw [h] at hperm hpw
  constructor
  · exact hperm.mem_iff.mp (getLastD_mem_cons t d)
  · intro x hx
    exact pairwise_dateLe_getLastD t d hpw x (hperm.mem_iff.mpr hx)

open CompetitionMatchesSpider in
lemma parse_spec (w : SeasonWindow) (rows : List ScrapedMatch)
    (hd : (survivors w rows).filterMap ScrapedMatch.match_date ≠ []) :
    ∃ dmin dmax : MatchDate,
      dmin ∈ (survivors w rows).filterMap ScrapedMatch.match_date ∧
      dmax ∈ (survivors w rows).filterMap ScrapedMatch.match_date ∧
      (∀ x ∈ (survivors w rows).filterMap ScrapedMatch.match_date,
        dateLe dmin x = true) ∧
      (∀ x ∈ (survivors w rows).filterMap ScrapedMatch.match_date,
        dateLe x dmax = true) ∧
      parse w rows =
        ⟨survivors w rows, (survivors w rows).length,
          some dmin.year, some dmax.year⟩ := by
  have hitems : survivors w rows ≠ [] := by
    intro hc
    apply hd
    rw [hc]
    rfl
  have hne : ¬ ((survivors w rows).isEmpty = true) :=
    fun hc => hitems (List.isEmpty_iff.mp hc)
  rcases hsort : ((survivors w rows).filterMap ScrapedMatch.match_date).mergeSort dateLe
    with _ | ⟨d, ds⟩
  · exfalso
    have hp := List.mergeSort_perm
      ((survivors w rows).filterMap ScrapedMatch.match_date) dateLe
    rw [hsort] at hp
    exact hd hp.symm.eq_nil
  · obtain ⟨hmem_min, hmin⟩ := mergeSort_head_min _ d ds hsort
    obtain ⟨hmem_max, hmax⟩ := mergeSort_last_max _ d ds hsort
    refine ⟨d, ds.getLastD d, hmem_min, hmem_max, hmin, hmax, ?_⟩
    simp only [parse]
    rw [if_neg hne, hsort]
    simp only [List.getLastD_cons]

open CompetitionMatchesSpider

/-- C3 (counterexample): the claim states that whenever the
surviving-record count is nonzero, the provisional CSV is renamed.  But
with no season window and a single surviving record whose date is
unparsable, one record survives (`items_scraped = 1`) and yet `closed`
leaves the filesystem unchanged and renames nothing, because
`first_item_date` was never set. -/
theorem rename_counterexample :
    (parse ⟨none, none⟩
        [⟨"7", none, none, none, none, none, none⟩]).items_scraped = 1 ∧
      closed [provisionalName "vbl" "160" "77"] "vbl" "160" "77"
          (parse ⟨none, none⟩ [⟨"7", none, none, none, none, none, none⟩]) =
        ⟨[provisionalName "vbl" "160" "77"], false, none⟩ := by
  have hsurv : survivors ⟨none, none⟩ [⟨"7", none, none, none, none, none, none⟩] =
      [⟨"7", none, none, none, none, none, none⟩] := by
    decide
  have hp : parse ⟨none, none⟩ [⟨"7", none, none, none, none, none, none⟩] =
      ⟨[⟨"7", none, none, none, none, none, none⟩], 1, none, none⟩ := by
    simp [parse, hsurv, List.mergeSort_nil]
  rw [hp]
  exact ⟨rfl, rfl⟩

/-- C3 (amended): after a phase's crawl, (1) if the surviving-record
count is zero, no rename occurs and no error is raised; (2) if at least
one surviving record has a parseable date and the provisional file
exists, the provisional CSV is renamed — provided the target name is not
already taken — to the name embedding `(min_year, max_year)`, the minimum
and maximum years among the surviving records' parseable dates; (3) if
records survive but none has a parseable date, no rename occurs. -/
theorem rename_postcondition_amended (w : SeasonWindow) (rows : List ScrapedMatch)
    (fed_acronym competition_id competition_pid : String) (fs : List String) :
    (survivors w rows = [] →
        closed fs fed_acronym competition_id competition_pid (parse w rows) =
          ⟨fs, false, none⟩) ∧
      ((survivors w rows).filterMap ScrapedMatch.match_date ≠ [] →
        provisionalName fed_acronym competition_id competition_pid ∈ fs →
        ∃ ymin ymax : Int,
          ymin ∈ survivingYears w rows ∧
          (∀ y ∈ survivingYears w rows, ymin ≤ y) ∧
          ymax ∈ survivingYears w rows ∧
          (∀ y ∈ survivingYears w rows, y ≤ ymax) ∧
          (renamedName fed_acronym competition_id competition_pid ymin ymax ∉ fs →
            closed fs fed_acronym competition_id competition_pid (parse w rows) =
              ⟨renamedName fed_acronym competition_id competition_pid ymin ymax ::
                  fs.erase (provisionalName fed_acronym competition_id competition_pid),
                false,
                some (renamedName fed_acronym competition_id competition_pid ymin ymax)⟩)) ∧
      (survivors w rows ≠ [] →
        (survivors w rows).filterMap ScrapedMatch.match_date = [] →
        closed fs fed_acronym competition_id competition_pid (parse w rows) =
          ⟨fs, false, none⟩) := by
  refine ⟨?_, ?_, ?_⟩
  · intro h
    have hp : parse w rows = ⟨[], 0, none, none⟩ := by
      simp [parse, h]
    rw [hp]
    rfl
  · intro hd hsrc
    obtain ⟨dmin, dmax, hmem1, hmem2, hmin, hmax, hp⟩ := parse_spec w rows hd
    refine ⟨dmin.year, dmax.year, ?_, ?_, ?_, ?_, ?_⟩
    · exact List.mem_map.mpr ⟨dmin, hmem1, rfl⟩
    · intro y hy
      rcases List.mem_map.mp hy with ⟨x, hx, rfl⟩
      exact dateLe_year_le (hmin x hx)
    · exact List.mem_map.mpr ⟨dmax, hmem2, rfl⟩
    · intro y hy
      rcases List.mem_map.mp hy with ⟨x, hx, rfl⟩
      exact dateLe_year_le (hmax x hx)
    · intro hdst
      have hitems : survivors w rows ≠ [] := by
        intro hc
        apply hd
        rw [hc]
        rfl
      have h0 : ¬ ((survivors w rows).length = 0) :=
        fun hc => hitems (List.length_eq_zero.mp hc)
      rw [hp]
      simp only [closed]
      rw [if_neg h0, if_pos hsrc, if_neg hdst]
  · intro h1 h2
    have hne : ¬ ((survivors w rows).isEmpty = true) :=
      fun hc => h1 (List.isEmpty_iff.mp hc)
    have hp : parse w rows =
        ⟨survivors w rows, (survivors w rows).length, none, none⟩ := by
      simp only [parse, h2]
      rw [if_neg hne]
      simp
    rw [hp]
    rfl

/-- C3 (witness): the amended theorem applied to one surviving record
dated 2025-10-12 with the provisional file present: the provisional CSV
is renamed to the 2025-2025 target. -/
theorem rename_postcondition_amended_witness :
    closed [provisionalName "vbl" "160" "77"] "vbl" "160" "77"
        (parse ⟨none, none⟩
          [⟨"7", some ⟨2025, 10, 12⟩, none, none, none, none, none⟩]) =
      ⟨[renamedName "vbl" "160" "77" 2025 2025], false,
        some (renamedName "vbl" "160" "77" 2025 2025)⟩ := by
  obtain ⟨ymin, ymax, hm1, hm2, hm3, hm4, hren⟩ :=
    (rename_postcondition_amended ⟨none, none⟩
        [⟨"7", some ⟨2025, 10, 12⟩, none, none, none, none, none⟩]
        "vbl" "160" "77" [provisionalName "vbl" "160" "77"]).2.1
      (by decide) (by decide)
  have hy : survivingYears ⟨none, none⟩
      [⟨"7", some ⟨2025, 10, 12⟩, none, none, none, none, none⟩] = [2025] := by
    decide
  rw [hy] at hm1 hm3
  have hy1 : ymin = 2025 := List.mem_singleton.mp hm1
  have hy2 : ymax = 2025 := List.mem_singleton.mp hm3
  subst hy1
  subst hy2
  have hc := hren (by decide)
  rw [hc]
  decide

/-- C4: if the rename target already exists when the spider closes with
surviving records (nonzero count and both item dates set), no exception
escapes `closed` — the `FileExistsError` is caught and turned into a
warning — and the filesystem is unchanged: the pre-existing target is
retained untouched and the provisional file is left in place alongside
it. -/
theorem rename_collision_recovery
    (fed_acronym competition_id competition_pid : String) (fs : List String)
    (pr : ParseResult) (y1 y2 : Int)
    (h0 : pr.items_scraped ≠ 0)
    (h1 : pr.first_item_date = some y1)
    (h2 : pr.last_item_date = some y2)
    (hsrc : provisionalName fed_acronym competition_id competition_pid ∈ fs)
    (hdst : renamedName fed_acronym competition_id competition_pid y1 y2 ∈ fs) :
    closed fs fed_acronym competition_id competition_pid pr = ⟨fs, false, none⟩ := by
  simp only [closed, h1, h2]
  rw [if_neg h0, if_pos hsrc, if_pos hdst]

/-- C4 (witness): a concrete collision — both the provisional file and
the 2025-2026 target exist; `closed` leaves both in place and raises
nothing. -/
theorem rename_collision_recovery_witness :
    closed [provisionalName "vbl" "160" "", renamedName "vbl" "160" "" 2025 2026]
        "vbl" "160" "" ⟨[], 3, some 2025, some 2026⟩ =
      ⟨[provisionalName "vbl" "160" "", renamedName "vbl" "160" "" 2025 2026],
        false, none⟩ :=
  rename_collision_recovery "vbl" "160" "" _ _ 2025 2026
    (by decide) rfl rfl (by decide) (by decide)

/-- C9: if at least one record survives the season filter but none of the
surviving records has a parseable date, `closed` performs no rename: the
filesystem is unchanged (no year-range-named file is created, the
provisional CSV keeps its provisional name) and no exception escapes. -/
theorem no_parseable_dates_no_rename (w : SeasonWindow) (rows : List ScrapedMatch)
    (fed_acronym competition_id competition_pid : String) (fs : List String)
    (h1 : survivors w rows ≠ [])
    (h2 : (survivors w rows).filterMap ScrapedMatch.match_date = []) :
    closed fs fed_acronym competition_id competition_pid (parse w rows) =
      ⟨fs, false, none⟩ := by
  have hne : ¬ ((survivors w rows).isEmpty = true) :=
    fun hc => h1 (List.isEmpty_iff.mp hc)
  have hp : parse w rows =
      ⟨survivors w rows, (survivors w rows).length, none, none⟩ := by
    simp only [parse, h2]
    rw [if_neg hne]
    simp
  rw [hp]
  rfl

/-- C9 (witness): one surviving record with an unparsable date; `closed`
changes nothing. -/
theorem no_parseable_dates_no_rename_witness :
    closed [] "vbl" "185" ""
        (parse ⟨none, none⟩ [⟨"9", none, none, none, none, none, none⟩]) =
      ⟨[], false, none⟩ :=
  no_parseable_dates_no_rename ⟨none, none⟩
    [⟨"9", none, none, none, none, none, none⟩] "vbl" "185" "" []
    (by decide) (by decide)

/-! Helper lemmas about the modification-time sort and the fan-out. -/

lemma mtimeGe_trans : ∀ a b c : DataFile,
    decide (b.mtime ≤ a.mtime) = true → decide (c.mtime ≤ b.mtime) = true →
      decide (c.mtime ≤ a.mtime) = true := by
  intro a b c h1 h2
  simp only [decide_eq_true_eq] at h1 h2 ⊢
  omega

lemma mtimeGe_total : ∀ a b : DataFile,
    (decide (b.mtime ≤ a.mtime) || decide (a.mtime ≤ b.mtime)) = true := by
  intro a b
  simp only [Bool.or_eq_true, decide_eq_true_eq]
  omega

lemma mergeSort_mtime_head (l : List DataFile) (c : DataFile) (t : List DataFile)
    (h : l.mergeSort (fun a b => decide (b.mtime ≤ a.mtime)) = c :: t) :
    c ∈ l ∧ ∀ g ∈ l, g.mtime ≤ c.mtime := by
  have hperm := List.mergeSort_perm l (fun a b => decide (b.mtime ≤ a.mtime))
  have hpw := List.sorted_mergeSort mtimeGe_trans mtimeGe_total l
  constructor
  · have hmem : c ∈ l.mergeSort (fun a b => decide (b.mtime ≤ a.mtime)) := by
      rw [h]; exact List.mem_cons_self _ _
    exact hperm.mem_iff.mp hmem
  · intro g hg
    have hg2 : g ∈ c :: t := by
      rw [← h]; exact hperm.mem_iff.mpr hg
    rcases List.mem_cons.mp hg2 with rfl | hg3
    · exact le_refl _
    · have := (List.pairwise_cons.mp (h ▸ hpw)).1 g hg3
      simpa using this

lemma collectJobs_length (fed_acronym : String) (match_ids : List String) :
    (collectMatchStatisticsJobs fed_acronym match_ids).length = 2 * match_ids.length := by
  induction match_ids with
  | nil => rfl
  | cons m ms ih =>
      simp only [collectMatchStatisticsJobs, List.flatMap_cons, List.length_append,
        List.length_cons, List.length_nil] at ih ⊢
      omega

lemma collectJobs_fed (fed_acronym : String) (match_ids : List String) :
    ∀ job ∈ collectMatchStatisticsJobs fed_acronym match_ids,
      job.fed_acronym = fed_acronym := by
  induction match_ids with
  | nil => intro job hj; simp [collectMatchStatisticsJobs] at hj
  | cons m ms ih =>
      intro job hj
      simp only [collectMatchStatisticsJobs, List.flatMap_cons, List.mem_append,
        List.mem_cons, List.mem_singleton] at hj
      rcases hj with (rfl | rfl | h) | hj2
      · rfl
      · rfl
      · simp at h
      · exact ih job hj2

lemma collectJobs_map_id (fed_acronym : String) (match_ids : List String) :
    (collectMatchStatisticsJobs fed_acronym match_ids).map StatsJob.match_id =
      match_ids.flatMap fun m => [m, m] := by
  induction match_ids with
  | nil => rfl
  | cons m ms ih =>
      simp only [collectMatchStatisticsJobs, List.flatMap_cons, List.map_append] at ih ⊢
      rw [ih]
      rfl

lemma runJobBatch_fail (j : StatsJob) (msg : String) (post : List JobEvent) :
    ∀ pre : List JobEvent, (∀ e ∈ pre, ∃ j0, e = JobEvent.ok j0) →
      runJobBatch (pre ++ JobEvent.fail j msg :: post) =
        (pre.filterMap (fun e =>
          match e with
          | JobEvent.ok j0 => some j0
          | JobEvent.fail _ _ => none), Except.error msg) := by
  intro pre
  induction pre with
  | nil => intro _; rfl
  | cons e pre ih =>
      intro h
      rcases h e (List.mem_cons_self _ _) with ⟨j0, rfl⟩
      simp only [List.cons_append, runJobBatch, List.filterMap_cons, List.append_eq]
      rw [ih fun x hx => h x (List.mem_cons_of_mem _ hx)]

/-- C6: `_resolve_competition_file` returns the most recently modified
file among those matching the renamed-file pattern when any exists;
otherwise the provisional file when it exists; otherwise it fails with a
`FileNotFoundError` whose message names the federation, the competition
and the sub-stage. -/
theorem resolve_output_file (dir : List DataFile)
    (fed_acronym competition_id competition_pid : String) :
    (renamedCandidates dir fed_acronym competition_id competition_pid ≠ [] →
        ∃ c, c ∈ renamedCandidates dir fed_acronym competition_id competition_pid ∧
          resolveCompetitionFile dir fed_acronym competition_id competition_pid =
            Except.ok c.name ∧
          ∀ g ∈ renamedCandidates dir fed_acronym competition_id competition_pid,
            g.mtime ≤ c.mtime) ∧
      (renamedCandidates dir fed_acronym competition_id competition_pid = [] →
        ((dir.any fun f =>
            f.name = workflowProvisionalName fed_acronym competition_id competition_pid) = true →
          resolveCompetitionFile dir fed_acronym competition_id competition_pid =
            Except.ok (workflowProvisionalName fed_acronym competition_id competition_pid)) ∧
        ((dir.any fun f =>
            f.name = workflowProvisionalName fed_acronym competition_id competition_pid) = false →
          resolveCompetitionFile dir fed_acronym competition_id competition_pid =
            Except.error (notFoundMessage fed_acronym competition_id competition_pid) ∧
          notFoundMessage fed_acronym competition_id competition_pid =
            "volleystats: unable to locate competition matches file for " ++
              fed_acronym ++ " ID " ++ competition_id ++ " PID " ++ competition_pid)) := by
  constructor
  · intro hne
    rcases hsort : (renamedCandidates dir fed_acronym competition_id
        competition_pid).mergeSort (fun a b => decide (b.mtime ≤ a.mtime))
      with _ | ⟨c, t⟩
    · exfalso
      have hp := List.mergeSort_perm
        (renamedCandidates dir fed_acronym competition_id competition_pid)
        (fun a b => decide (b.mtime ≤ a.mtime))
      rw [hsort] at hp
      exact hne hp.symm.eq_nil
    · obtain ⟨hmem, hmax⟩ := mergeSort_mtime_head _ c t hsort
      refine ⟨c, hmem, ?_, hmax⟩
      simp only [resolveCompetitionFile]
      rw [hsort]
  · intro hnil
    constructor
    · intro hany
      simp only [resolveCompetitionFile]
      rw [hnil]
      simp [hany]
    · intro hany
      refine ⟨?_, rfl⟩
      simp only [resolveCompetitionFile]
      rw [hnil]
      simp [hany]

/-- C6 (witness): an empty data directory — no renamed candidate, no
provisional file — resolves to the not-found error. -/
theorem resolve_output_file_witness :
    resolveCompetitionFile [] "vbl" "160" "77" =
      Except.error (notFoundMessage "vbl" "160" "77") :=
  (((resolve_output_file [] "vbl" "160" "77").2 rfl).2 rfl).1

/-- C8: writing any list of `CompetitionRecord` rows whose match ids are
non-empty to the CSV feed (header row, then one data row per record, in
order) and reading the file back through `_read_match_ids` yields exactly
the same ordered list of match ids. -/
theorem csv_round_trip (rs : List CompetitionRecord) :
    (∀ r ∈ rs, r.match_id ≠ "") →
    readMatchIds (writeCompetitionCsv rs) = rs.map CompetitionRecord.match_id := by
  induction rs with
  | nil => intro _; rfl
  | cons r rs ih =>
      intro h
      have hr : r.match_id ≠ "" := h r (List.mem_cons_self _ _)
      have htail := ih fun x hx => h x (List.mem_cons_of_mem _ hx)
      simp only [writeCompetitionCsv, readMatchIds, List.map_cons,
        List.filterMap_cons] at htail ⊢
      rw [show rowLookup competitionHeader (recordRow r) "Match ID" =
          some r.match_id from rfl]
      simp only [hr, ite_true, if_pos, ne_eq, not_false_eq_true]
      rw [htail]

/-- C8 (witness): one concrete record round-trips. -/
theorem csv_round_trip_witness :
    readMatchIds (writeCompetitionCsv
        [⟨"101", "2025-10-12", "arena", "home", "3", "guest", "1"⟩]) = ["101"] :=
  csv_round_trip [⟨"101", "2025-10-12", "arena", "home", "3", "guest", "1"⟩]
    (by decide)

/-- C5: for a non-empty accumulated match-id queue the workflow schedules
exactly two match-statistics jobs per queued id — in queue order, home
then guest, all scoped to the same federation — and, for any
completion-event sequence in which a failure arrives after some
successfully completed jobs, the batch stops at that first failure: the
failure's message is re-raised to the workflow's caller and exactly the
jobs completed before it are retained. -/
theorem fan_out_batch (fed_acronym : String) (match_ids : List String)
    (hne : match_ids ≠ [])
    (pre post : List JobEvent) (j : StatsJob) (msg : String)
    (hpre : ∀ e ∈ pre, ∃ j0, e = JobEvent.ok j0) :
    (collectMatchStatisticsJobs fed_acronym match_ids).length =
        2 * match_ids.length ∧
      (∀ job ∈ collectMatchStatisticsJobs fed_acronym match_ids,
        job.fed_acronym = fed_acronym) ∧
      (collectMatchStatisticsJobs fed_acronym match_ids).map StatsJob.match_id =
        (match_ids.flatMap fun m => [m, m]) ∧
      runFanOut match_ids (pre ++ JobEvent.fail j msg :: post) =
        (pre.filterMap (fun e =>
          match e with
          | JobEvent.ok j0 => some j0
          | JobEvent.fail _ _ => none), Except.error msg) := by
  refine ⟨collectJobs_length _ _, collectJobs_fed _ _, collectJobs_map_id _ _, ?_⟩
  have hempty : match_ids.isEmpty = false := by
    cases match_ids with
    | nil => exact absurd rfl hne
    | cons a l => rfl
  simp only [runFanOut, hempty]
  simpa using runJobBatch_fail j msg post pre hpre

/-- C5 (witness): one queued match, whose home job completes and whose
guest job fails — the home job is retained, the failure is re-raised. -/
theorem fan_out_batch_witness :
    runFanOut ["101"]
        [JobEvent.ok ⟨StatsSide.home, "vbl", "101"⟩,
          JobEvent.fail ⟨StatsSide.guest, "vbl", "101"⟩ "boom"] =
      ([⟨StatsSide.home, "vbl", "101"⟩], Except.error "boom") := by
  have h := fan_out_batch "vbl" ["101"] (by decide)
    [JobEvent.ok ⟨StatsSide.home, "vbl", "101"⟩] []
    ⟨StatsSide.guest, "vbl", "101"⟩ "boom"
    (fun e he => ⟨⟨StatsSide.home, "vbl", "101"⟩, List.mem_singleton.mp he⟩)
  simpa using h.2.2.2

end Volleystats
